import Mathlib

/- Shallow embedding of the two data-preparation scripts of the repository:
   coco_to_tfrecord_converter.py (COCO to TFRecord conversion) and
   partition_dataset.py (train/test split of an image directory).
   COCO numeric fields (bbox coordinates, areas, image sizes) are embedded
   as rationals: the Python code computes `float(x) / image_width` and the
   claims are about the exact arithmetic of those expressions. -/

/-- One COCO object record as consumed by create_tf_example: the bbox
fields x, y, width, height (absolute pixel coordinates, top-left origin),
the iscrowd flag (an integer, truthy when nonzero), the category id, the
area value, and the decoded segmentation mask.  The decoding
mask.decode(mask.frPyObjects(...)) is performed by the external pycocotools
library, outside this repository, so its result is taken as given: the
H x W x N binary array, embedded rows x cols x instance-channels. -/
structure Ann where
  x : ℚ
  y : ℚ
  width : ℚ
  height : ℚ
  iscrowd : ℕ
  category_id : ℕ
  area : ℚ
  seg : List (List (List ℕ))
deriving DecidableEq

/-- np.amax(binary_mask, axis=2): collapse the instance-channel axis by
taking the maximum over channels at every pixel (logical OR on 0/1 data). -/
def amaxAxis2 (m : List (List (List ℕ))) : List (List ℕ) :=
  m.map (fun row => row.map (fun px => px.foldr max 0))

/-- A mask array handed to PIL.Image.fromarray: either the collapsed 2-D
array or the raw 3-D decoded array. -/
inductive MaskArr where
  | arr2 : List (List ℕ) → MaskArr
  | arr3 : List (List (List ℕ)) → MaskArr
deriving DecidableEq

/-- The PNG bytes produced by pil_image.save(output_io, format='PNG').
PNG encoding is lossless, so it is modelled as an injective wrapper
around the encoded array. -/
structure PngBytes where
  decoded : MaskArr
deriving DecidableEq

def pngEncode (m : MaskArr) : PngBytes := ⟨m⟩

/-- Lines 130-138 of coco_to_tfrecord_converter.py: decode the
segmentation, collapse the channels via np.amax(axis=2) when the object
is not a crowd, and re-encode the result as PNG. -/
def maskPipeline (a : Ann) : PngBytes :=
  if a.iscrowd ≠ 0 then pngEncode (MaskArr.arr3 a.seg)
  else pngEncode (MaskArr.arr2 (amaxAxis2 a.seg))

/-- The parallel lists built by the loop of create_tf_example
(lines 100-109 initialise them empty), plus the skip counter. -/
structure LoopState where
  xmin : List ℚ
  xmax : List ℚ
  ymin : List ℚ
  ymax : List ℚ
  is_crowd : List ℕ
  category_names : List String
  category_ids : List ℕ
  area : List ℚ
  encoded_mask_png : List PngBytes
  num_annotations_skipped : ℕ
deriving DecidableEq

/-- The loop of create_tf_example, lines 111-138: each object either hits
one of the two skip checks (incrementing the counter and continuing) or
appends one entry to every parallel list (to the mask list only when
include_masks is set).  The recursion processes the remaining objects
after the head, so entries appear in the list order of the source loop. -/
def annLoop (W H : ℚ) (category_index : ℕ → String) (include_masks : Bool) :
    List Ann → LoopState
  | [] => ⟨[], [], [], [], [], [], [], [], [], 0⟩
  | a :: rest =>
    let s := annLoop W H category_index include_masks rest
    if a.width ≤ 0 ∨ a.height ≤ 0 then
      { s with num_annotations_skipped := s.num_annotations_skipped + 1 }
    else if a.x + a.width > W ∨ a.y + a.height > H then
      { s with num_annotations_skipped := s.num_annotations_skipped + 1 }
    else
      { s with
        xmin := a.x / W :: s.xmin,
        xmax := (a.x + a.width) / W :: s.xmax,
        ymin := a.y / H :: s.ymin,
        ymax := (a.y + a.height) / H :: s.ymax,
        is_crowd := a.iscrowd :: s.is_crowd,
        category_names := category_index a.category_id :: s.category_names,
        category_ids := a.category_id :: s.category_ids,
        area := a.area :: s.area,
        encoded_mask_png :=
          if include_masks then maskPipeline a :: s.encoded_mask_png
          else s.encoded_mask_png }

/-- The fields of the tf.Example feature dictionary that the claims are
about: the parallel object lists and the optional mask list (the mask key
is present only when include_masks is set, lines 169-171).  The scalar
image fields (encoded bytes, sha256 key, file name) concern file I/O and
are outside the embedded fragment. -/
structure TFExample where
  xmin : List ℚ
  xmax : List ℚ
  ymin : List ℚ
  ymax : List ℚ
  is_crowd : List ℕ
  category_names : List String
  category_ids : List ℕ
  area : List ℚ
  masks : Option (List PngBytes)
deriving DecidableEq

/-- create_tf_example, lines 100-174, restricted to the in-memory record
construction: run the object loop, assemble the feature dictionary, and
return the example together with num_annotations_skipped. -/
def create_tf_example (image_width image_height : ℚ)
    (category_index : ℕ → String) (include_masks : Bool)
    (annotations_list : List Ann) : TFExample × ℕ :=
  let s := annLoop image_width image_height category_index include_masks
    annotations_list
  (⟨s.xmin, s.xmax, s.ymin, s.ymax, s.is_crowd, s.category_names,
    s.category_ids, s.area,
    if include_masks then some s.encoded_mask_png else none⟩,
   s.num_annotations_skipped)

/-- The validation predicate of lines 113-118: an object is kept exactly
when neither skip check fires. -/
def validAnn (W H : ℚ) (a : Ann) : Bool :=
  decide (¬(a.width ≤ 0 ∨ a.height ≤ 0) ∧
    ¬(a.x + a.width > W ∨ a.y + a.height > H))

lemma annLoop_eq (W H : ℚ) (cat : ℕ → String) (inc : Bool) (l : List Ann) :
    annLoop W H cat inc l =
      { xmin := (l.filter (validAnn W H)).map (fun a => a.x / W),
        xmax := (l.filter (validAnn W H)).map (fun a => (a.x + a.width) / W),
        ymin := (l.filter (validAnn W H)).map (fun a => a.y / H),
        ymax := (l.filter (validAnn W H)).map (fun a => (a.y + a.height) / H),
        is_crowd := (l.filter (validAnn W H)).map (fun a => a.iscrowd),
        category_names :=
          (l.filter (validAnn W H)).map (fun a => cat a.category_id),
        category_ids := (l.filter (validAnn W H)).map (fun a => a.category_id),
        area := (l.filter (validAnn W H)).map (fun a => a.area),
        encoded_mask_png :=
          if inc then (l.filter (validAnn W H)).map maskPipeline else [],
        num_annotations_skipped :=
          l.countP (fun a => ! validAnn W H a) } := by
  induction l with
  | nil => cases inc <;> rfl
  | cons a rest ih =>
    by_cases h1 : a.width ≤ 0 ∨ a.height ≤ 0
    · simp [annLoop, ih, validAnn, h1, List.filter_cons, List.countP_cons]
    · by_cases h2 : a.x + a.width > W ∨ a.y + a.height > H
      · simp [annLoop, ih, validAnn, h1, h2, List.filter_cons,
          List.countP_cons]
      · cases inc <;>
          simp [annLoop, ih, validAnn, h1, h2, List.filter_cons,
            List.countP_cons]

/-- C1: for an image with positive dimensions, every annotation that
passes validation contributes exactly the normalized values xmin = x/W,
xmax = (x+width)/W, ymin = y/H, ymax = (y+height)/H to the record's
coordinate lists: the record carries normalized min/max corners under the
ymin/xmin/ymax/xmax keys, not the input's [x, y, width, height] values. -/
theorem c1_normalized_coordinates (W H : ℚ) (hW : 0 < W) (hH : 0 < H)
    (cat : ℕ → String) (inc : Bool) (l : List Ann) :
    (create_tf_example W H cat inc l).1.xmin =
      (l.filter (validAnn W H)).map (fun a => a.x / W)
    ∧ (create_tf_example W H cat inc l).1.xmax =
      (l.filter (validAnn W H)).map (fun a => (a.x + a.width) / W)
    ∧ (create_tf_example W H cat inc l).1.ymin =
      (l.filter (validAnn W H)).map (fun a => a.y / H)
    ∧ (create_tf_example W H cat inc l).1.ymax =
      (l.filter (validAnn W H)).map (fun a => (a.y + a.height) / H) := by
  simp [create_tf_example, annLoop_eq]

/-- C1 witness: the 100 x 100 image with bbox [10, 20, 30, 40] yields
xmin = 0.10, ymin = 0.20, xmax = 0.40, ymax = 0.60. -/
theorem c1_normalized_coordinates_witness :
    (0 : ℚ) < 100 ∧
    (create_tf_example 100 100 (fun _ => "cat") false
      [⟨10, 20, 30, 40, 0, 1, 1200, []⟩]).1.xmin = [1/10] ∧
    (create_tf_example 100 100 (fun _ => "cat") false
      [⟨10, 20, 30, 40, 0, 1, 1200, []⟩]).1.ymin = [1/5] ∧
    (create_tf_example 100 100 (fun _ => "cat") false
      [⟨10, 20, 30, 40, 0, 1, 1200, []⟩]).1.xmax = [2/5] ∧
    (create_tf_example 100 100 (fun _ => "cat") false
      [⟨10, 20, 30, 40, 0, 1, 1200, []⟩]).1.ymax = [3/5] := by
  have h := c1_normalized_coordinates 100 100 (by norm_num) (by norm_num)
    (fun _ => "cat") false [⟨10, 20, 30, 40, 0, 1, 1200, []⟩]
  refine ⟨by norm_num, ?_, ?_, ?_, ?_⟩
  · rw [h.1]; norm_num [validAnn, List.filter_cons]
  · rw [h.2.2.1]; norm_num [validAnn, List.filter_cons]
  · rw [h.2.1]; norm_num [validAnn, List.filter_cons]
  · rw [h.2.2.2]; norm_num [validAnn, List.filter_cons]

/-- C2: every annotation with width <= 0 or height <= 0, or whose box
extends past the image bounds, increments the skip counter by exactly one
and appends to none of the parallel lists; the returned count is the
number of such annotations, and the lists collect exactly the valid
annotations in order. -/
theorem c2_invalid_annotations_skipped (W H : ℚ) (cat : ℕ → String)
    (inc : Bool) (l : List Ann) :
    (create_tf_example W H cat inc l).2 =
      l.countP (fun a => decide ((a.width ≤ 0 ∨ a.height ≤ 0) ∨
        (a.x + a.width > W ∨ a.y + a.height > H)))
    ∧ (create_tf_example W H cat inc l).1.xmin =
      (l.filter (validAnn W H)).map (fun a => a.x / W)
    ∧ (create_tf_example W H cat inc l).1.xmax =
      (l.filter (validAnn W H)).map (fun a => (a.x + a.width) / W)
    ∧ (create_tf_example W H cat inc l).1.ymin =
      (l.filter (validAnn W H)).map (fun a => a.y / H)
    ∧ (create_tf_example W H cat inc l).1.ymax =
      (l.filter (validAnn W H)).map (fun a => (a.y + a.height) / H)
    ∧ (create_tf_example W H cat inc l).1.is_crowd =
      (l.filter (validAnn W H)).map (fun a => a.iscrowd)
    ∧ (create_tf_example W H cat inc l).1.category_names =
      (l.filter (validAnn W H)).map (fun a => cat a.category_id)
    ∧ (create_tf_example W H cat inc l).1.area =
      (l.filter (validAnn W H)).map (fun a => a.area)
    ∧ (create_tf_example W H cat inc l).1.masks =
      (if inc then some ((l.filter (validAnn W H)).map maskPipeline)
       else none) := by
  have hcnt : ∀ a ∈ l, ((! validAnn W H a) = true ↔
      decide ((a.width ≤ 0 ∨ a.height ≤ 0) ∨
        (a.x + a.width > W ∨ a.y + a.height > H)) = true) := by
    intro a _
    simp only [validAnn, Bool.not_eq_true', decide_eq_false_iff_not,
      decide_eq_true_eq]
    tauto
  refine ⟨?_, by simp [create_tf_example, annLoop_eq],
    by simp [create_tf_example, annLoop_eq],
    by simp [create_tf_example, annLoop_eq],
    by simp [create_tf_example, annLoop_eq],
    by simp [create_tf_example, annLoop_eq],
    by simp [create_tf_example, annLoop_eq],
    by simp [create_tf_example, annLoop_eq],
    by cases inc <;> simp [create_tf_example, annLoop_eq]⟩
  simp only [create_tf_example, annLoop_eq]
  exact List.countP_congr hcnt

/-- C3: the record's parallel lists all have the same length, whatever
the annotation list, and with include_masks enabled the mask list has
that same length as well. -/
theorem c3_parallel_sequences_aligned (W H : ℚ) (cat : ℕ → String)
    (inc : Bool) (l : List Ann) :
    (create_tf_example W H cat inc l).1.xmax.length =
      (create_tf_example W H cat inc l).1.xmin.length
    ∧ (create_tf_example W H cat inc l).1.ymin.length =
      (create_tf_example W H cat inc l).1.xmin.length
    ∧ (create_tf_example W H cat inc l).1.ymax.length =
      (create_tf_example W H cat inc l).1.xmin.length
    ∧ (create_tf_example W H cat inc l).1.category_names.length =
      (create_tf_example W H cat inc l).1.xmin.length
    ∧ (create_tf_example W H cat inc l).1.is_crowd.length =
      (create_tf_example W H cat inc l).1.xmin.length
    ∧ (create_tf_example W H cat inc l).1.area.length =
      (create_tf_example W H cat inc l).1.xmin.length
    ∧ (create_tf_example W H cat true l).1.masks.map List.length =
      some (create_tf_example W H cat true l).1.xmin.length := by
  simp [create_tf_example, annLoop_eq]

/-- C4 counterexample: the claim omits any lower bound on x and y, yet a
box with x = -1, y = -1, w = h = 1 in a 10 x 10 image passes both skip
checks of create_tf_example (w > 0, h > 0, x + w = 0 <= 10,
y + h = 0 <= 10) while the appended xmin = -1/10 violates 0 <= xmin. -/
theorem c4_counterexample :
    validAnn 10 10 ⟨-1, -1, 1, 1, 0, 1, 1, []⟩ = true
    ∧ (create_tf_example 10 10 (fun _ => "cat") false
        [⟨-1, -1, 1, 1, 0, 1, 1, []⟩]).1.xmin = [-(1/10)]
    ∧ ¬(0 ≤ (-(1/10) : ℚ)) := by
  refine ⟨by norm_num [validAnn], ?_, by norm_num⟩
  norm_num [create_tf_example, annLoop]

/-- C4 (amended): for an image with W > 0, H > 0 and a bounding box with
0 <= x, 0 <= y, w > 0, h > 0, x + w <= W and y + h <= H, the coordinates
appended by create_tf_example satisfy 0 <= xmin < xmax <= 1 and
0 <= ymin < ymax <= 1.  (The claim as stated omits 0 <= x and 0 <= y.) -/
theorem c4_amended_normalized_bounds (W H x y w h : ℚ) (ic cid : ℕ)
    (ar : ℚ) (sg : List (List (List ℕ))) (cat : ℕ → String) (inc : Bool)
    (hW : 0 < W) (hH : 0 < H) (hx : 0 ≤ x) (hy : 0 ≤ y)
    (hw : 0 < w) (hh : 0 < h) (hxw : x + w ≤ W) (hyh : y + h ≤ H) :
    (create_tf_example W H cat inc
      [⟨x, y, w, h, ic, cid, ar, sg⟩]).1.xmin = [x / W]
    ∧ (create_tf_example W H cat inc
      [⟨x, y, w, h, ic, cid, ar, sg⟩]).1.xmax = [(x + w) / W]
    ∧ (create_tf_example W H cat inc
      [⟨x, y, w, h, ic, cid, ar, sg⟩]).1.ymin = [y / H]
    ∧ (create_tf_example W H cat inc
      [⟨x, y, w, h, ic, cid, ar, sg⟩]).1.ymax = [(y + h) / H]
    ∧ 0 ≤ x / W ∧ x / W < (x + w) / W ∧ (x + w) / W ≤ 1
    ∧ 0 ≤ y / H ∧ y / H < (y + h) / H ∧ (y + h) / H ≤ 1 := by
  have hc1 : ¬(w ≤ 0 ∨ h ≤ 0) := not_or.mpr ⟨not_le.mpr hw, not_le.mpr hh⟩
  have hc2 : ¬(x + w > W ∨ y + h > H) :=
    not_or.mpr ⟨not_lt.mpr hxw, not_lt.mpr hyh⟩
  refine ⟨by simp [create_tf_example, annLoop, hc1, hc2],
    by simp [create_tf_example, annLoop, hc1, hc2],
    by simp [create_tf_example, annLoop, hc1, hc2],
    by simp [create_tf_example, annLoop, hc1, hc2],
    div_nonneg hx hW.le, ?_, (div_le_one hW).mpr hxw,
    div_nonneg hy hH.le, ?_, (div_le_one hH).mpr hyh⟩
  · exact (div_lt_div_right hW).mpr (lt_add_of_pos_right x hw)
  · exact (div_lt_div_right hH).mpr (lt_add_of_pos_right y hh)

/-- C4 (amended) witness: the spec's 100 x 100 image with bbox
[10, 20, 30, 40] satisfies every hypothesis and yields bounds-respecting
normalized coordinates. -/
theorem c4_amended_normalized_bounds_witness :
    (create_tf_example 100 100 (fun _ => "cat") false
      [⟨10, 20, 30, 40, 0, 1, 1200, []⟩]).1.xmin = [(10 : ℚ) / 100]
    ∧ (create_tf_example 100 100 (fun _ => "cat") false
      [⟨10, 20, 30, 40, 0, 1, 1200, []⟩]).1.xmax = [((10 : ℚ) + 30) / 100]
    ∧ (create_tf_example 100 100 (fun _ => "cat") false
      [⟨10, 20, 30, 40, 0, 1, 1200, []⟩]).1.ymin = [(20 : ℚ) / 100]
    ∧ (create_tf_example 100 100 (fun _ => "cat") false
      [⟨10, 20, 30, 40, 0, 1, 1200, []⟩]).1.ymax = [((20 : ℚ) + 40) / 100]
    ∧ 0 ≤ (10 : ℚ) / 100 ∧ (10 : ℚ) / 100 < ((10 : ℚ) + 30) / 100
    ∧ ((10 : ℚ) + 30) / 100 ≤ 1
    ∧ 0 ≤ (20 : ℚ) / 100 ∧ (20 : ℚ) / 100 < ((20 : ℚ) + 40) / 100
    ∧ ((20 : ℚ) + 40) / 100 ≤ 1 :=
  c4_amended_normalized_bounds 100 100 10 20 30 40 0 1 1200 []
    (fun _ => "cat") false (by norm_num) (by norm_num) (by norm_num)
    (by norm_num) (by norm_num) (by norm_num) (by norm_num) (by norm_num)

/-- C5: with include_masks=False the record carries no mask field; with
include_masks=True the mask list collects one PNG per valid annotation,
and for a non-crowd annotation whose decoded mask has several instance
channels the encoded mask is the element-wise maximum (logical OR)
collapse of those channels into a single 2-D array. -/
theorem c5_mask_inclusion (W H : ℚ) (cat : ℕ → String) (l : List Ann)
    (a : Ann) (hc : a.iscrowd = 0)
    (hmc : 2 ≤ ((a.seg.headD []).headD []).length) :
    (create_tf_example W H cat false l).1.masks = none
    ∧ (create_tf_example W H cat true l).1.masks =
      some ((l.filter (validAnn W H)).map maskPipeline)
    ∧ maskPipeline a = pngEncode (MaskArr.arr2 (amaxAxis2 a.seg)) := by
  refine ⟨by simp [create_tf_example], ?_, by simp [maskPipeline, hc]⟩
  simp [create_tf_example, annLoop_eq]

/-- C5 witness: a 1 x 2 image region with a two-channel decoded mask. -/
theorem c5_mask_inclusion_witness :
    (create_tf_example 10 10 (fun _ => "cat") false
      [⟨0, 0, 1, 1, 0, 1, 1, [[[0, 1], [1, 0]]]⟩]).1.masks = none
    ∧ (create_tf_example 10 10 (fun _ => "cat") true
      [⟨0, 0, 1, 1, 0, 1, 1, [[[0, 1], [1, 0]]]⟩]).1.masks =
      some (([⟨0, 0, 1, 1, 0, 1, 1, [[[0, 1], [1, 0]]]⟩].filter
        (validAnn 10 10)).map maskPipeline)
    ∧ maskPipeline ⟨0, 0, 1, 1, 0, 1, 1, [[[0, 1], [1, 0]]]⟩ =
      pngEncode (MaskArr.arr2
        (amaxAxis2 [[[0, 1], [1, 0]]])) :=
  c5_mask_inclusion 10 10 (fun _ => "cat")
    [⟨0, 0, 1, 1, 0, 1, 1, [[[0, 1], [1, 0]]]⟩]
    ⟨0, 0, 1, 1, 0, 1, 1, [[[0, 1], [1, 0]]]⟩ rfl (by decide)

/-- One write of line 228: append the serialized record to the shard
handle at the given index. -/
def shardAppend {α : Type} (shards : List (List α)) (j : ℕ) (r : α) :
    List (List α) :=
  shards.set j (shards.getD j [] ++ [r])

/-- The write loop of lines 220-228 of coco_to_tfrecord_converter.py:
iterate over the enumerated images and write each record to shard
idx % num_shards. -/
def shardWriteLoop {α : Type} (num_shards : ℕ) :
    List (ℕ × α) → List (List α) → List (List α)
  | [], shards => shards
  | (idx, r) :: rest, shards =>
    shardWriteLoop num_shards rest (shardAppend shards (idx % num_shards) r)

/-- _create_tf_record_from_coco_annotations restricted to record routing:
open_sharded_output_tfrecords opens num_shards fresh writers (modelled as
num_shards empty lists) and the loop distributes the per-image records
over them by enumeration index. -/
def tf_record_shards {α : Type} (records : List α) (num_shards : ℕ) :
    List (List α) :=
  shardWriteLoop num_shards records.enum (List.replicate num_shards [])

lemma shardWriteLoop_length {α : Type} (S : ℕ) :
    ∀ (l : List (ℕ × α)) (shards : List (List α)),
      (shardWriteLoop S l shards).length = shards.length
  | [], _ => rfl
  | (_, _) :: rest, shards => by
    rw [shardWriteLoop, shardWriteLoop_length S rest]
    exact List.length_set ..

lemma getD_set_self {α : Type} (l : List (List α)) (j : ℕ) (v : List α)
    (h : j < l.length) : (l.set j v).getD j [] = v := by
  have h2 : j < (l.set j v).length := by simpa using h
  rw [List.getD_eq_getElem _ _ h2]
  exact List.getElem_set_self h2

lemma getD_set_ne {α : Type} (l : List (List α)) (k j : ℕ) (v : List α)
    (hkj : k ≠ j) : (l.set k v).getD j [] = l.getD j [] := by
  by_cases hj : j < l.length
  · have h2 : j < (l.set k v).length := by simpa using hj
    rw [List.getD_eq_getElem _ _ h2, List.getD_eq_getElem _ _ hj]
    exact List.getElem_set_ne hkj h2
  · rw [List.getD_eq_default _ _ (by simpa using not_lt.mp hj),
      List.getD_eq_default _ _ (not_lt.mp hj)]

lemma shardWriteLoop_getD {α : Type} (S : ℕ) (hS : 0 < S) (j : ℕ)
    (hj : j < S) :
    ∀ (l : List (ℕ × α)) (shards : List (List α)), shards.length = S →
      (shardWriteLoop S l shards).getD j [] =
        shards.getD j [] ++
          (l.filter (fun p => decide (p.1 % S = j))).map Prod.snd := by
  intro l
  induction l with
  | nil => intro shards _; simp [shardWriteLoop]
  | cons p rest ih =>
    intro shards hlen
    obtain ⟨i, r⟩ := p
    have hset : (shardAppend shards (i % S) r).length = S := by
      rw [shardAppend, List.length_set]; exact hlen
    rw [shardWriteLoop, ih _ hset, List.filter_cons]
    by_cases hij : i % S = j
    · rw [shardAppend, hij, getD_set_self _ _ _ (by rw [hlen]; exact hj)]
      simp [hij, List.append_assoc]
    · rw [shardAppend, getD_set_ne _ _ _ _ hij]
      simp [hij]

lemma range_filter_mod_length (S j N : ℕ) (hS : 0 < S) (hj : j < S) :
    ((List.range N).filter (fun i => decide (i % S = j))).length =
      N / S + if j < N % S then 1 else 0 := by
  rw [← List.countP_eq_length_filter]
  have h1 : (List.range N).countP (fun i => decide (i % S = j)) =
      Nat.count (· ≡ j [MOD S]) N := by
    rw [Nat.count]
    refine List.countP_congr ?_
    intro i _
    simp only [decide_eq_true_eq]
    show i % S = j ↔ i ≡ j [MOD S]
    rw [Nat.ModEq, Nat.mod_eq_of_lt hj]
  rw [h1, Nat.count_modEq_card N hS j, Nat.mod_eq_of_lt hj]

lemma ceil_div_eq (S N : ℕ) (hS : 0 < S) :
    (N + S - 1) / S = N / S + if N % S = 0 then 0 else 1 := by
  have hdm : S * (N / S) + N % S = N := Nat.div_add_mod N S
  have hmlt : N % S < S := Nat.mod_lt N hS
  by_cases hr : N % S = 0
  · have h2 : N + S - 1 = S * (N / S) + (S - 1) := by omega
    rw [h2, Nat.mul_add_div hS, Nat.div_eq_of_lt (show S - 1 < S by omega),
      hr]
    simp
  · have hexp : S * (N / S + 1) = S * (N / S) + S := by ring
    have h2 : N + S - 1 = S * (N / S + 1) + (N % S - 1) := by omega
    rw [h2, Nat.mul_add_div hS,
      Nat.div_eq_of_lt (show N % S - 1 < S by omega)]
    simp [hr]

/-- C6: the record of the image at enumeration index i is written to
shard i mod S, so shard j holds exactly the records whose index is
congruent to j, and its size is either floor(N/S) or ceil(N/S). -/
theorem c6_shard_round_robin {α : Type} (records : List α) (S : ℕ)
    (hS : 0 < S) (j : ℕ) (hj : j < S) :
    (tf_record_shards records S).getD j [] =
      (records.enum.filter (fun p => decide (p.1 % S = j))).map Prod.snd
    ∧ (((tf_record_shards records S).getD j []).length =
        records.length / S
      ∨ ((tf_record_shards records S).getD j []).length =
        (records.length + S - 1) / S) := by
  have hroute : (tf_record_shards records S).getD j [] =
      (records.enum.filter (fun p => decide (p.1 % S = j))).map Prod.snd := by
    rw [tf_record_shards,
      shardWriteLoop_getD S hS j hj records.enum (List.replicate S [])
        (List.length_replicate ..)]
    have : (List.replicate S ([] : List α)).getD j [] = [] := by
      simp [List.getD, List.getElem?_replicate, hj]
    rw [this, List.nil_append]
  refine ⟨hroute, ?_⟩
  have hcp : records.enum.countP (fun p => decide (p.1 % S = j)) =
      ((List.range records.length).filter
        (fun i => decide (i % S = j))).length := by
    rw [← List.countP_eq_length_filter, ← List.enum_map_fst records,
      List.countP_map]
    rfl
  have hlen : ((tf_record_shards records S).getD j []).length =
      records.length / S + if j < records.length % S then 1 else 0 := by
    rw [hroute, List.length_map, ← List.countP_eq_length_filter, hcp,
      range_filter_mod_length S j records.length hS hj]
  by_cases hcase : j < records.length % S
  · right
    rw [hlen, ceil_div_eq S records.length hS, if_pos hcase,
      if_neg (by omega)]
  · left
    rw [hlen, if_neg hcase]
    exact Nat.add_zero _

/-- C6 witness: five records over two shards; shard 0 receives the
records at indices 0, 2 and 4, which is ceil(5/2) = 3 of them. -/
theorem c6_shard_round_robin_witness :
    (tf_record_shards [10, 11, 12, 13, 14] 2).getD 0 [] =
      (([10, 11, 12, 13, 14] : List ℕ).enum.filter
        (fun p => decide (p.1 % 2 = 0))).map Prod.snd
    ∧ (((tf_record_shards [10, 11, 12, 13, 14] 2).getD 0 []).length =
        ([10, 11, 12, 13, 14] : List ℕ).length / 2
      ∨ ((tf_record_shards [10, 11, 12, 13, 14] 2).getD 0 []).length =
        (([10, 11, 12, 13, 14] : List ℕ).length + 2 - 1) / 2) :=
  c6_shard_round_robin [10, 11, 12, 13, 14] 2 (by decide) 0 (by decide)

/-- math.ceil(ratio * num_images), line 26 of partition_dataset.py. -/
def num_test_images (ratio : ℚ) (num_images : ℕ) : ℕ :=
  (Int.ceil (ratio * num_images)).toNat

/-- The selection loop of lines 28-35 of partition_dataset.py: draw an
index into the remaining image list (random.randint(0, len(images)-1)
always returns an in-range index; the draw stream is modelled as an
arbitrary list of naturals reduced mod the current length, which is the
identity on in-range draws), copy the file at that index to the test
directory and remove it from the list; the loop of lines 37-39 then
copies every remaining file to the train directory.  The value is the
pair (test files, train files) in copy order. -/
def select_loop : ℕ → List String → List ℕ → List String × List String
  | 0, images, _ => ([], images)
  | n + 1, images, picks =>
    let idx := picks.headD 0 % images.length
    let filename := images.getD idx ""
    let rest := select_loop n (images.erase filename) picks.tail
    (filename :: rest.1, rest.2)

lemma select_loop_spec :
    ∀ (n : ℕ) (images : List String) (picks : List ℕ), n ≤ images.length →
      (select_loop n images picks).1.length = n
      ∧ ((select_loop n images picks).1 ++
          (select_loop n images picks).2).Perm images := by
  intro n
  induction n with
  | zero => intro images picks _; exact ⟨rfl, by simp [select_loop]⟩
  | succ n ih =>
    intro images picks hn
    have hpos : 0 < images.length := lt_of_lt_of_le (Nat.succ_pos n) hn
    have hlt : picks.headD 0 % images.length < images.length :=
      Nat.mod_lt _ hpos
    have hmem : images.getD (picks.headD 0 % images.length) "" ∈ images := by
      rw [List.getD_eq_getElem _ _ hlt]
      exact List.getElem_mem _
    have herase :
        (images.erase
          (images.getD (picks.headD 0 % images.length) "")).length =
          images.length - 1 := List.length_erase_of_mem hmem
    have hle : n ≤ (images.erase
        (images.getD (picks.headD 0 % images.length) "")).length := by omega
    obtain ⟨ih1, ih2⟩ := ih (images.erase
      (images.getD (picks.headD 0 % images.length) "")) picks.tail hle
    constructor
    · simp only [select_loop, List.length_cons]
      rw [ih1]
    · simp only [select_loop, List.cons_append]
      exact (ih2.cons _).trans (List.perm_cons_erase hmem).symm

lemma num_test_le (ratio : ℚ) (n : ℕ) (h0 : 0 ≤ ratio) (h1 : ratio ≤ 1) :
    num_test_images ratio n ≤ n := by
  rw [num_test_images]
  have h2 : Int.ceil (ratio * (n : ℚ)) ≤ (n : ℤ) := by
    have hle : ratio * (n : ℚ) ≤ (n : ℚ) := by
      calc ratio * (n : ℚ) ≤ 1 * (n : ℚ) :=
        mul_le_mul_of_nonneg_right h1 (by positivity)
      _ = (n : ℚ) := one_mul _
    calc Int.ceil (ratio * (n : ℚ)) ≤ Int.ceil ((n : ℚ)) :=
      Int.ceil_le_ceil hle
    _ = (n : ℤ) := Int.ceil_natCast n
  exact Int.toNat_le.mpr h2

/-- C7: for a duplicate-free listing and 0 <= ratio <= 1, the selection
loop copies exactly ceil(ratio * n) files to the test directory, the
test and train sets are disjoint, and together they are a permutation of
the full image list. -/
theorem c7_partition_sizes (images : List String) (ratio : ℚ)
    (picks : List ℕ) (h0 : 0 ≤ ratio) (h1 : ratio ≤ 1)
    (hnd : images.Nodup) :
    (select_loop (num_test_images ratio images.length) images
      picks).1.length = num_test_images ratio images.length
    ∧ ((select_loop (num_test_images ratio images.length) images
        picks).1 ++
        (select_loop (num_test_images ratio images.length) images
          picks).2).Perm images
    ∧ (select_loop (num_test_images ratio images.length) images
        picks).1.Disjoint
        (select_loop (num_test_images ratio images.length) images
          picks).2 := by
  obtain ⟨hl, hp⟩ := select_loop_spec (num_test_images ratio images.length)
    images picks (num_test_le ratio images.length h0 h1)
  refine ⟨hl, hp, ?_⟩
  have hnd2 := (hp.nodup_iff).mpr hnd
  exact ((List.nodup_append).mp hnd2).2.2

/-- C7 witness: five distinct images at ratio 1/2 give
ceil(5/2) = 3 test images, with disjoint test and train parts that
together permute the listing. -/
theorem c7_partition_sizes_witness :
    (select_loop (num_test_images (1/2)
      (["a", "b", "c", "d", "e"] : List String).length)
      ["a", "b", "c", "d", "e"] [7, 0]).1.length =
      num_test_images (1/2) (["a", "b", "c", "d", "e"] : List String).length
    ∧ ((select_loop (num_test_images (1/2)
        (["a", "b", "c", "d", "e"] : List String).length)
        ["a", "b", "c", "d", "e"] [7, 0]).1 ++
        (select_loop (num_test_images (1/2)
          (["a", "b", "c", "d", "e"] : List String).length)
          ["a", "b", "c", "d", "e"] [7, 0]).2).Perm
        ["a", "b", "c", "d", "e"]
    ∧ (select_loop (num_test_images (1/2)
        (["a", "b", "c", "d", "e"] : List String).length)
        ["a", "b", "c", "d", "e"] [7, 0]).1.Disjoint
        (select_loop (num_test_images (1/2)
          (["a", "b", "c", "d", "e"] : List String).length)
          ["a", "b", "c", "d", "e"] [7, 0]).2 :=
  c7_partition_sizes ["a", "b", "c", "d", "e"] (1/2) [7, 0]
    (by norm_num) (by norm_num) (by decide)

/-- Lines 16-22 of partition_dataset.py: the directory-creation phase of
iterate_dir.  The source guards each os.makedirs call with
`if os.path.exists(dir)` — it calls makedirs only when the directory
already exists.  os.makedirs raises FileExistsError on an existing path
(the call does not pass exist_ok=True), and when the directory is absent
the branch is skipped and nothing is created.  The model takes the
existence state of the two destination directories and returns their
state after the phase, or the raised exception. -/
def iterate_dir_make_dirs (train_dir_exists test_dir_exists : Bool) :
    Except String (Bool × Bool) :=
  if train_dir_exists then Except.error "FileExistsError"
  else if test_dir_exists then Except.error "FileExistsError"
  else Except.ok (train_dir_exists, test_dir_exists)

/-- C8 (code bug): with both destination directories absent, the
directory-creation phase finishes without creating either one — copying
then begins with the directories still missing, contrary to the claim —
and with an existing directory the phase raises FileExistsError. -/
theorem c8_mkdir_condition_inverted :
    iterate_dir_make_dirs false false = Except.ok (false, false)
    ∧ iterate_dir_make_dirs true false = Except.error "FileExistsError" :=
  ⟨rfl, rfl⟩

/-- os.path.join with a relative second component. -/
def path_join (a b : String) : String := a ++ "/" ++ b

/-- os.path.splitext(f)[0]: the name up to the last dot, where a name
whose characters before that dot are all dots (such as a leading-dot
name with no other dot) has no extension and is returned whole. -/
def splitext_stem (f : String) : String :=
  let cs := f.toList
  let k := cs.reverse.indexOf '.'
  if k = cs.length then f
  else
    let pre := cs.take (cs.length - k - 1)
    if pre.all (fun c => c = '.') then f else String.mk pre

/-- Lines 37-39 of partition_dataset.py: the train-branch image copy
destination os.path.join(train_dir, filename), with
train_dir = os.path.join(des_dir, 'train') from line 16. -/
def train_branch_image_dest (des_dir filename : String) : String :=
  path_join (path_join des_dir "train") filename

/-- Lines 40-42 of partition_dataset.py: the train-branch sidecar copy
destination os.path.join(des_dir, xml_filename) with
xml_filename = os.path.splitext(filename)[0] + 'xml'. -/
def train_branch_xml_dest (des_dir filename : String) : String :=
  path_join des_dir (splitext_stem filename ++ "xml")

/-- C9 (code bug): for a train-branch image "img1.jpg" with destination
root "out", the image lands under "out/train/" but the sidecar
annotation file is written to "out/img1xml" — the parent directory, not
the train subdirectory (and with the dot of ".xml" missing). -/
theorem c9_sidecar_wrong_directory :
    train_branch_image_dest "out" "img1.jpg" = "out/train/img1.jpg"
    ∧ train_branch_xml_dest "out" "img1.jpg" = "out/img1xml"
    ∧ "out/train/".toList.isPrefixOf
        (train_branch_image_dest "out" "img1.jpg").toList = true
    ∧ "out/train/".toList.isPrefixOf
        (train_branch_xml_dest "out" "img1.jpg").toList = false := by
  decide

/-- Python's \s for a str pattern (no re.ASCII flag on line 24): the
characters CPython's regex engine treats as whitespace, i.e. the
Py_UNICODE_ISSPACE set — U+0009..U+000D, U+001C..U+001F, space, U+0085
(NEL), U+00A0 (NBSP), U+1680, U+2000..U+200A, U+2028, U+2029, U+202F,
U+205F and U+3000. -/
def isPySpace (c : Char) : Bool :=
  (0x09 ≤ c.toNat && c.toNat ≤ 0x0D) || (0x1C ≤ c.toNat && c.toNat ≤ 0x1F)
    || c.toNat = 0x20 || c.toNat = 0x85 || c.toNat = 0xA0
    || c.toNat = 0x1680 || (0x2000 ≤ c.toNat && c.toNat ≤ 0x200A)
    || c.toNat = 0x2028 || c.toNat = 0x2029 || c.toNat = 0x202F
    || c.toNat = 0x205F || c.toNat = 0x3000

/-- The character class [A-Za-z0-9\s_\\.:] of the regex on line 24 of
partition_dataset.py, with \s the Unicode whitespace set above. -/
def isClassChar (c : Char) : Bool :=
  c.isUpper || c.isLower || c.isDigit || c = '_' || c = '\\' || c = '.'
    || c = ':' || isPySpace c

/-- The three alternative extension literals of the regex: note they are
lowercase and the regex has no IGNORECASE flag. -/
def image_ext_list : List (List Char) :=
  ["jpg".toList, "jpeg".toList, "png".toList]

/-- Matches the regex fragment (.jpg|.jpeg|.png) against the whole input:
the dot is unescaped, so it matches any character except newline,
followed by one of the literal extension strings. -/
def matchDotExt (cs : List Char) : Bool :=
  match cs with
  | [] => false
  | c :: rest => (c ≠ '\n') && image_ext_list.any (fun e => rest = e)

/-- Matches ([A-Za-z0-9\s_\\.:]+)(.jpg|.jpeg|.png) against the whole
input: one or more class characters, then the dot-extension fragment. -/
def matchClassExt : List Char → Bool
  | [] => false
  | b :: rest => isClassChar b && (matchDotExt rest || matchClassExt rest)

/-- re.search with the $-anchored pattern: the match may start anywhere,
so some suffix of the input must match the pattern entirely. -/
def reSearchSuffix : List Char → Bool
  | [] => false
  | b :: rest => matchClassExt (b :: rest) || reSearchSuffix rest

/-- Line 24 of partition_dataset.py: re.search of the pattern against a
file name.  In Python, $ matches at the end of the string and also just
before a single trailing newline, so a newline-terminated name is
matched against its last-character-dropped form as well (a suffix match
ending at the true end is impossible there, since the extension literals
end in letters). -/
def image_name_match (f : String) : Bool :=
  reSearchSuffix f.toList ||
    (match f.toList.getLast? with
     | some c => c = '\n' && reSearchSuffix f.toList.dropLast
     | none => false)

/-- The image list comprehension of line 24, with listing the result of
os.listdir(source_dir). -/
def iterate_dir_images (listing : List String) : List String :=
  listing.filter image_name_match

/-- The amended C10 condition on the characters of a name: it ends with
one of the literal lowercase extensions jpg, jpeg, png, immediately
preceded by one arbitrary non-newline character, immediately preceded by
at least one character of the class [A-Za-z0-9\s_\\.:]. -/
def amended_ext_cond (cs : List Char) : Prop :=
  ∃ b c e, e ∈ image_ext_list ∧ isClassChar b = true ∧ c ≠ '\n' ∧
    (b :: c :: e) <:+ cs

/-- The amended C10 condition on a file name, accounting for the Python
$ anchor also matching before one trailing newline. -/
def amended_image_cond (f : String) : Prop :=
  amended_ext_cond f.toList ∨
    (f.toList.getLast? = some '\n' ∧ amended_ext_cond f.toList.dropLast)

lemma matchClassExt_imp : ∀ cs, matchClassExt cs = true → amended_ext_cond cs := by
  intro cs
  induction cs with
  | nil => intro h; exact absurd h (by simp [matchClassExt])
  | cons b rest ih =>
    intro h
    rw [matchClassExt, Bool.and_eq_true, Bool.or_eq_true] at h
    obtain ⟨hb, hrest⟩ := h
    rcases hrest with hdot | hrec
    · match rest, hdot with
      | c :: tail, hdot =>
        rw [matchDotExt, Bool.and_eq_true, List.any_eq_true] at hdot
        obtain ⟨hc, e, he, heq⟩ := hdot
        rw [decide_eq_true_eq] at hc heq
        exact ⟨b, c, e, he, hb, hc, heq ▸ List.suffix_refl _⟩
    · obtain ⟨b2, c2, e2, he2, hb2, hc2, hsuf⟩ := ih hrec
      exact ⟨b2, c2, e2, he2, hb2, hc2, hsuf.trans (List.suffix_cons b rest)⟩

lemma amended_imp_reSearch :
    ∀ cs, amended_ext_cond cs → reSearchSuffix cs = true := by
  intro cs
  induction cs with
  | nil =>
    rintro ⟨b, c, e, _, _, _, hsuf⟩
    have := hsuf.length_le
    simp at this
  | cons x rest ih =>
    rintro ⟨b, c, e, he, hb, hc, hsuf⟩
    rw [reSearchSuffix, Bool.or_eq_true]
    rcases List.suffix_cons_iff.mp hsuf with heq | htail
    · left
      have hx : b = x := (List.cons_eq_cons.mp heq).1
      have hrest : c :: e = rest := (List.cons_eq_cons.mp heq).2
      rw [← hx, ← hrest]
      simp [matchClassExt, matchDotExt, hb, hc]
      exact Or.inl he
    · right
      exact ih ⟨b, c, e, he, hb, hc, htail⟩

lemma reSearch_imp :
    ∀ cs, reSearchSuffix cs = true → amended_ext_cond cs := by
  intro cs
  induction cs with
  | nil => intro h; exact absurd h (by simp [reSearchSuffix])
  | cons x rest ih =>
    intro h
    rw [reSearchSuffix, Bool.or_eq_true] at h
    rcases h with hm | hr
    · exact matchClassExt_imp _ hm
    · obtain ⟨b, c, e, he, hb, hc, hsuf⟩ := ih hr
      exact ⟨b, c, e, he, hb, hc, hsuf.trans (List.suffix_cons x rest)⟩

lemma reSearch_iff (cs : List Char) :
    reSearchSuffix cs = true ↔ amended_ext_cond cs :=
  ⟨reSearch_imp cs, amended_imp_reSearch cs⟩

lemma image_name_match_iff (f : String) :
    image_name_match f = true ↔ amended_image_cond f := by
  rw [image_name_match, amended_image_cond]
  cases hlast : f.toList.getLast? with
  | none => simp [reSearch_iff]
  | some c => simp [reSearch_iff]

/-- C10 (amended): the partitioner includes a listed name iff the name
(or, when it ends in a newline, the name without that newline) ends with
one of the literal lowercase strings jpg, jpeg, png, immediately
preceded by an arbitrary non-newline character, immediately preceded by
at least one character of the class [A-Za-z0-9\s_\\.:], where \s is the
Unicode whitespace set Python's re matches in str patterns — the
comparison is case-sensitive and no literal dot before the extension is
required. -/
theorem c10_amended_image_filter (listing : List String) (f : String) :
    f ∈ iterate_dir_images listing ↔
      f ∈ listing ∧ amended_image_cond f := by
  rw [iterate_dir_images, List.mem_filter, image_name_match_iff]

/-- C10 counterexample: "A.JPG" ends with ".jpg" case-insensitively yet
is excluded by the filter (the regex is case-sensitive), while "abjpg"
is included although it ends with none of .jpg, .jpeg, .png (the
regex dot is unescaped and matches the letter b). -/
theorem c10_counterexample :
    ".jpg".toList.isSuffixOf ("A.JPG".toList.map Char.toLower) = true
    ∧ iterate_dir_images ["A.JPG"] = []
    ∧ iterate_dir_images ["abjpg"] = ["abjpg"]
    ∧ (".jpg".toList.isSuffixOf "abjpg".toList
        || ".jpeg".toList.isSuffixOf "abjpg".toList
        || ".png".toList.isSuffixOf "abjpg".toList) = false := by
  decide

